/-
Verification of core components of v-pipe-scout against its specification.

The development shallowly embeds, in Lean, the Python functions the claims
are about:
  * `Mutation.validate_mutation_string` and the canonical mutation format
    (src/api/signatures.py),
  * `VariantDefinition.format_mutation` (src/api/signatures.py),
  * `WiseLoculusLapis.fetch_mutation_counts_and_coverage`
    (src/app/api/wiseloculus.py),
  * the mutation-variant matrix construction of
    src/app/subpages/variant_signature_composer.py,
  * the variant registry of src/app/state.py together with the guarded
    "add custom variant" flow of the composer page,
  * the progress/failure behaviour of `run_deconvolve` (src/worker/tasks.py)
    and `devconvolve` (src/worker/deconvolve.py).

Python strings are modelled as `List Char` (restricted to the ASCII fragment:
the alphabets involved are ASCII; Python `str.upper` and the regex class `\d`
agree with the ASCII model on every string over these alphabets), integers as
`Nat`, floats produced by exact divisions of counts as `ℚ`, `None`-able
service payloads as `Option`, and raised exceptions as `Except`.
-/
import Mathlib

namespace VPipeScout

/-! ## Decimal digit strings

Python renders positions with `str(position)` (inside f-strings) and parses
them with `int(...)` applied to a run of digits matched by the regex `\d+`.
The two functions below model exactly that. -/

/-- ASCII decimal-digit test, the fragment of the regex class `\d` we model. -/
def isAsciiDigit (c : Char) : Bool := 48 ≤ c.toNat && c.toNat ≤ 57

/-- Numeric value of an ASCII digit character. -/
def digitVal (c : Char) : Nat := c.toNat - 48

/-- The ASCII character of a decimal digit (only used for digits `< 10`). -/
def digitChar : Nat → Char
  | 0 => '0' | 1 => '1' | 2 => '2' | 3 => '3' | 4 => '4'
  | 5 => '5' | 6 => '6' | 7 => '7' | 8 => '8' | _ => '9'

/-- Little-endian decimal digits of `n` (empty for `0`).  The first argument
is fuel, so that the definition is structural and reduces definitionally. -/
def natDigitsRevAux : Nat → Nat → List Nat
  | 0, _ => []
  | _ + 1, 0 => []
  | fuel + 1, n + 1 => ((n + 1) % 10) :: natDigitsRevAux fuel ((n + 1) / 10)

/-- Little-endian decimal digits of `n` (empty for `0`). -/
def natDigitsRev (n : Nat) : List Nat := natDigitsRevAux n n

/-- Decimal rendering of a natural number, as Python `str(n)` produces it. -/
def natToDigits (n : Nat) : List Char :=
  if n = 0 then ['0'] else ((natDigitsRev n).reverse).map digitChar

/-- Value of a big-endian digit string, as Python `int(...)` computes it on a
string of ASCII digits. -/
def digitsToNat (l : List Char) : Nat := l.foldl (fun a c => a * 10 + digitVal c) 0

theorem natDigitsRevAux_zero (fuel : Nat) : natDigitsRevAux fuel 0 = [] := by
  cases fuel <;> rfl

theorem natDigitsRevAux_foldr (fuel : Nat) :
    ∀ n, n ≤ fuel → (natDigitsRevAux fuel n).foldr (fun d a => a * 10 + d) 0 = n := by
  induction fuel with
  | zero => intro n hn; interval_cases n; rfl
  | succ fuel ih =>
    intro n hn
    match n with
    | 0 => rfl
    | n + 1 =>
      have hdiv : (n + 1) / 10 ≤ fuel := by
        have := Nat.div_lt_self (Nat.succ_pos n) (by decide : 1 < 10)
        omega
      simp only [natDigitsRevAux, List.foldr_cons, ih _ hdiv]
      omega

theorem natDigitsRevAux_lt_ten (fuel : Nat) :
    ∀ n, ∀ d ∈ natDigitsRevAux fuel n, d < 10 := by
  induction fuel with
  | zero => intro n d hd; simp [natDigitsRevAux] at hd
  | succ fuel ih =>
    intro n d hd
    match n with
    | 0 => simp [natDigitsRevAux] at hd
    | n + 1 =>
      simp only [natDigitsRevAux, List.mem_cons] at hd
      rcases hd with h | h
      · subst h; exact Nat.mod_lt _ (by decide)
      · exact ih _ _ h

theorem digitVal_digitChar (d : Nat) (hd : d < 10) : digitVal (digitChar d) = d := by
  interval_cases d <;> rfl

theorem isAsciiDigit_digitChar (d : Nat) (hd : d < 10) : isAsciiDigit (digitChar d) = true := by
  interval_cases d <;> rfl

theorem foldl_digits_map (l : List Nat) :
    ∀ a, (∀ d ∈ l, d < 10) →
      (l.map digitChar).foldl (fun x c => x * 10 + digitVal c) a =
        l.foldl (fun x d => x * 10 + d) a := by
  induction l with
  | nil => intro a _; rfl
  | cons d l ih =>
    intro a h
    simp only [List.map_cons, List.foldl_cons]
    rw [digitVal_digitChar d (h d (by simp))]
    exact ih _ (fun x hx => h x (by simp [hx]))

theorem digitsToNat_natToDigits (n : Nat) : digitsToNat (natToDigits n) = n := by
  by_cases h : n = 0
  · subst h; rfl
  · unfold natToDigits digitsToNat
    rw [if_neg h]
    have hlt : ∀ d ∈ (natDigitsRev n).reverse, d < 10 := by
      intro d hd
      exact natDigitsRevAux_lt_ten n n d (List.mem_reverse.mp hd)
    rw [foldl_digits_map _ 0 hlt, List.foldl_reverse]
    exact natDigitsRevAux_foldr n n (Nat.le_refl n)

theorem natToDigits_ne_nil (n : Nat) : natToDigits n ≠ [] := by
  by_cases h : n = 0
  · subst h; simp [natToDigits]
  · intro hcon
    have := digitsToNat_natToDigits n
    rw [hcon] at this
    exact h (by simpa [digitsToNat] using this.symm)

theorem natToDigits_all_digits (n : Nat) :
    ∀ c ∈ natToDigits n, isAsciiDigit c = true := by
  intro c hc
  unfold natToDigits at hc
  by_cases h : n = 0
  · simp [h] at hc; subst hc; rfl
  · rw [if_neg h] at hc
    obtain ⟨d, hd, rfl⟩ := List.mem_map.mp hc
    exact isAsciiDigit_digitChar d (natDigitsRevAux_lt_ten n n d (List.mem_reverse.mp hd))

/-! ## MutationCodec: `Mutation.validate_mutation_string` (src/api/signatures.py)

The parser upper-cases its input (`mutation_str.upper()`), matches the regex
`^([ACGTN]?)(\d+)([ACGTN-])$`, converts the digit group with `int`, and then
runs the pydantic validators (position strictly positive; the regex already
guarantees the symbol constraints). -/

/-- ASCII-fragment model of Python `str.upper` applied character-wise. -/
def pyUpper (c : Char) : Char :=
  if 97 ≤ c.toNat && c.toNat ≤ 122 then Char.ofNat (c.toNat - 32) else c

/-- Symbols the regex accepts for the optional reference group. -/
def refSyms : List Char := ['A', 'C', 'G', 'T', 'N']

/-- Symbols the regex accepts for the alternative group. -/
def altSyms : List Char := ['A', 'C', 'G', 'T', 'N', '-']

/-- The parsed `mutation_data` dictionary: position, optional reference,
alternative.  Python represents the missing reference as the empty string. -/
structure MutData where
  position : Nat
  ref : Option Char
  alt : Char
deriving DecidableEq, Repr

/-- The match of the (deterministic) regex `^([ACGTN]?)(\d+)([ACGTN-])$` on an
already upper-cased string: the optional leading reference symbol, the
non-empty digit group, the single alternative symbol. -/
def regexDecompose (u : List Char) : Option (Option Char × List Char × Char) :=
  let parts : Option Char × List Char :=
    match u with
    | c :: cs => if c ∈ refSyms then (some c, cs) else (none, u)
    | [] => (none, [])
  let ds := parts.2.takeWhile isAsciiDigit
  let rest := parts.2.dropWhile isAsciiDigit
  match ds, rest with
  | [], _ => none
  | _ :: _, [a] => if a ∈ altSyms then some (parts.1, ds, a) else none
  | _ :: _, _ => none

/-- `Mutation.validate_mutation_string`: returns the parsed data on success
(`(True, "", data)` in Python) and `none` on any rejection. -/
def validate_mutation_string (s : List Char) : Option MutData :=
  match regexDecompose (s.map pyUpper) with
  | none => none
  | some (r, ds, a) =>
      let p := digitsToNat ds
      if 0 < p then some ⟨p, r, a⟩ else none

/-- Modelled from the spec: §4.1 `format(code) -> string` — the canonical
rendering `f"{ref}{position}{alt}"` (e.g. `"C241T"`, ref-less `"123T"`,
deletion `"123-"`); the repository renders codes with exactly this f-string
but does not name the operation. -/
def formatCode (m : MutData) : List Char :=
  (match m.ref with | some c => [c] | none => []) ++ natToDigits m.position ++ [m.alt]

/-- The constraints enforced by the pydantic `Mutation` validators. -/
def validMutData (m : MutData) : Bool :=
  decide (0 < m.position) &&
    (match m.ref with | some c => decide (c ∈ refSyms) | none => true) &&
    decide (m.alt ∈ altSyms)

theorem takeWhile_append_all {p : Char → Bool} :
    ∀ (xs ys : List Char), (∀ x ∈ xs, p x = true) →
      (xs ++ ys).takeWhile p = xs ++ ys.takeWhile p := by
  intro xs ys h
  induction xs with
  | nil => rfl
  | cons x xs ih =>
    simp only [List.cons_append, List.takeWhile_cons, h x (by simp), if_true]
    rw [ih (fun z hz => h z (by simp [hz]))]

theorem dropWhile_append_all {p : Char → Bool} :
    ∀ (xs ys : List Char), (∀ x ∈ xs, p x = true) →
      (xs ++ ys).dropWhile p = ys.dropWhile p := by
  intro xs ys h
  induction xs with
  | nil => rfl
  | cons x xs ih =>
    simp only [List.cons_append, List.dropWhile_cons, h x (by simp), if_true]
    exact ih (fun z hz => h z (by simp [hz]))

theorem pyUpper_eq_self {c : Char} (h : c.toNat < 97) : pyUpper c = c := by
  unfold pyUpper
  have : (97 ≤ c.toNat && c.toNat ≤ 122) = false := by
    simp [Nat.not_le.mpr h]
  simp [this]

theorem pyUpper_refSyms {c : Char} (h : c ∈ refSyms) : pyUpper c = c := by
  fin_cases h <;> rfl

theorem pyUpper_altSyms {c : Char} (h : c ∈ altSyms) : pyUpper c = c := by
  fin_cases h <;> rfl

theorem pyUpper_digit {c : Char} (h : isAsciiDigit c = true) : pyUpper c = c := by
  apply pyUpper_eq_self
  simp only [isAsciiDigit, Bool.and_eq_true, decide_eq_true_eq] at h
  omega

theorem digit_not_refSym {c : Char} (h : isAsciiDigit c = true) : c ∉ refSyms := by
  intro hc
  simp only [isAsciiDigit, Bool.and_eq_true, decide_eq_true_eq] at h
  fin_cases hc <;> simp_all

theorem altSym_not_digit {c : Char} (h : c ∈ altSyms) : isAsciiDigit c = false := by
  fin_cases h <;> rfl

theorem map_pyUpper_formatCode {m : MutData} (hm : validMutData m = true) :
    (formatCode m).map pyUpper = formatCode m := by
  unfold validMutData at hm
  simp only [Bool.and_eq_true, decide_eq_true_eq] at hm
  unfold formatCode
  simp only [List.map_append]
  congr 1
  · congr 1
    · cases href : m.ref with
      | none => rfl
      | some c =>
        have hc : c ∈ refSyms := by
          have := hm.1.2; rw [href] at this; simpa using this
        simp [pyUpper_refSyms hc]
    · exact List.map_congr_left (fun c hc => pyUpper_digit (natToDigits_all_digits _ c hc)) |>.trans (List.map_id _)
  · simp [pyUpper_altSyms hm.2]

theorem regexDecompose_formatCode {m : MutData} (hm : validMutData m = true) :
    regexDecompose (formatCode m) = some (m.ref, natToDigits m.position, m.alt) := by
  unfold validMutData at hm
  simp only [Bool.and_eq_true, decide_eq_true_eq] at hm
  have hds : ∀ x ∈ natToDigits m.position, isAsciiDigit x = true := natToDigits_all_digits _
  have halt : isAsciiDigit m.alt = false := altSym_not_digit hm.2
  have htake : (natToDigits m.position ++ [m.alt]).takeWhile isAsciiDigit = natToDigits m.position := by
    rw [takeWhile_append_all _ _ hds]
    simp [List.takeWhile_cons, halt]
  have hdrop : (natToDigits m.position ++ [m.alt]).dropWhile isAsciiDigit = [m.alt] := by
    rw [dropWhile_append_all _ _ hds]
    simp [List.dropWhile_cons, halt]
  cases href : m.ref with
  | some c =>
    have hc : c ∈ refSyms := by
      have := hm.1.2; rw [href] at this; simpa using this
    unfold formatCode regexDecompose
    rw [href]
    simp only [List.cons_append, List.nil_append]
    rw [if_pos hc]
    simp only [htake, hdrop]
    obtain ⟨d, ds, hcons⟩ := List.exists_cons_of_ne_nil (natToDigits_ne_nil m.position)
    rw [hcons]
    simp [hm.2]
  | none =>
    unfold formatCode regexDecompose
    rw [href]
    simp only [List.nil_append]
    obtain ⟨d, ds, hcons⟩ := List.exists_cons_of_ne_nil (natToDigits_ne_nil m.position)
    have hd : isAsciiDigit d = true := by
      apply hds; rw [hcons]; simp
    rw [hcons]
    simp only [List.cons_append]
    rw [if_neg (digit_not_refSym hd)]
    rw [← List.cons_append, ← hcons, htake, hdrop]
    rw [hcons]
    simp [hm.2]

/-! ## MutationCodec: `VariantDefinition.format_mutation` (src/api/signatures.py)

`format_mutation(position, change)` first checks for a pure run of deletion
markers, then splits on `>` (Python `change.split('>')`), and emits canonical
code strings. -/

/-- Python `change.split('>')`. -/
def splitGt : List Char → List (List Char)
  | [] => [[]]
  | c :: cs =>
    if c = '>' then [] :: splitGt cs
    else
      match splitGt cs with
      | [] => [[c]]
      | p :: ps => (c :: p) :: ps

theorem splitGt_of_not_mem {l : List Char} (h : '>' ∉ l) : splitGt l = [l] := by
  induction l with
  | nil => rfl
  | cons c cs ih =>
    have hc : ¬ c = '>' := fun hcon => h (by simp [hcon])
    have hcs : '>' ∉ cs := fun hcon => h (by simp [hcon])
    simp only [splitGt, if_neg hc, ih hcs]

theorem splitGt_append {r a : List Char} (hr : '>' ∉ r) (ha : '>' ∉ a) :
    splitGt (r ++ '>' :: a) = [r, a] := by
  induction r with
  | nil => simp [splitGt, splitGt_of_not_mem ha]
  | cons c cs ih =>
    have hc : ¬ c = '>' := fun hcon => hr (by simp [hcon])
    have hcs : '>' ∉ cs := fun hcon => hr (by simp [hcon])
    simp only [List.cons_append, splitGt, if_neg hc]
    rw [show cs.append ('>' :: a) = cs ++ '>' :: a from rfl, ih hcs]

/-- `VariantDefinition.format_mutation(position, change)`.  Returns the list
of formatted mutation strings.  The branch structure mirrors the Python
function: a pure run of `-` characters first (ref `""`, alt `"-"`, one code
per character of the run, all anchored at `position`), then the `REF>ALT`
split, with the equal-length multi-site case, the differing-length skip, and
the single-site case (the inner `if i < len(alt)` bound check of the Python
loop is kept as the conditional in `filterMap`). -/
def format_mutation (position : Nat) (change : List Char) : List (List Char) :=
  if change.all (fun c => c == '-') then
    List.replicate change.length (natToDigits position ++ ['-'])
  else if '>' ∈ change then
    match splitGt change with
    | [r, a] =>
      if 1 < r.length ∧ 1 < a.length ∧ r.length = a.length then
        (List.range r.length).filterMap (fun i =>
          if i < a.length then
            some ([r.getD i ' '] ++ natToDigits (position + i) ++ [a.getD i ' '])
          else none)
      else if r.length ≠ a.length then []
      else if r ≠ [] ∧ a ≠ [] then [r ++ natToDigits position ++ a]
      else []
    | _ => []
  else []

theorem filterMap_if_lt {α : Type} (l : List Nat) (bound : Nat) (g : Nat → α)
    (h : ∀ i ∈ l, i < bound) :
    l.filterMap (fun i => if i < bound then some (g i) else none) = l.map g := by
  induction l with
  | nil => rfl
  | cons x xs ih =>
    simp only [List.filterMap_cons, if_pos (h x (by simp)), List.map_cons]
    rw [ih (fun z hz => h z (by simp [hz]))]

/-! ## CoverageAggregator: `WiseLoculusLapis.fetch_mutation_counts_and_coverage`
(src/app/api/wiseloculus.py)

The external count service is modelled as a function `svc` from the query
mutation string to the response payload: `some entries` for an HTTP 200
response (the `data` list) and `none` for a failed query (the code stores
`"data": None` in that case).  Counts are the non-negative integers the
service returns; frequencies are exact rationals. -/

/-- One element of the `data` list of a `/sample/aggregated` response. -/
structure Entry where
  sampling_date : String
  count : Nat
deriving DecidableEq, Repr

/-- A frequency cell: either the sentinel `"NA"` or a number. -/
inductive FreqVal
  | na
  | val (q : ℚ)
deriving DecidableEq

/-- A count cell: either the sentinel `"NA"` or a number. -/
inductive CountVal
  | na
  | val (n : Nat)
deriving DecidableEq

/-- One element of the `stratified` list of a mutation result. -/
structure StratRecord where
  sampling_date : String
  coverage : Nat
  frequency : FreqVal
  count : CountVal
deriving DecidableEq

/-- One element of `combined_results`. -/
structure MutResult where
  mutation : List Char
  coverage : Nat
  frequency : ℚ
  counts : List (Char × Nat)
  stratified : List StratRecord
deriving DecidableEq

/-- The nucleotide alphabet the function enumerates (`['A', 'T', 'C', 'G']`). -/
def nucleotides : List Char := ['A', 'T', 'C', 'G']

/-- The 20-residue alphabet of the amino-acid branch. -/
def amino_acids : List Char :=
  ['A', 'C', 'D', 'E', 'F', 'G', 'H', 'I', 'K', 'L',
   'M', 'N', 'P', 'Q', 'R', 'S', 'T', 'V', 'W', 'Y']

/-- The per-date accumulator `{"counts": {...}, "coverage": ...}`. -/
structure DateAcc where
  counts : List (Char × Nat)
  coverage : Nat
deriving DecidableEq

/-- `stratified_results`, an insertion-ordered dictionary keyed by date. -/
abbrev Strat := List (String × DateAcc)

/-- `counts[nt] += c` on the per-date counts dictionary. -/
def updateAssoc (l : List (Char × Nat)) (k : Char) (c : Nat) : List (Char × Nat) :=
  l.map (fun p => if p.1 = k then (p.1, p.2 + c) else p)

/-- Add `c` to the counts entry for `nt` and to the coverage of date `d`. -/
def bumpDate (s : Strat) (d : String) (nt : Char) (c : Nat) : Strat :=
  s.map (fun p =>
    if p.1 = d then (p.1, ⟨updateAssoc p.2.counts nt c, p.2.coverage + c⟩) else p)

/-- Process one `entry` of the data of symbol `nt`: create the date key with
zeroed per-symbol counts if absent, then add the count. -/
def addEntry (syms : List Char) (s : Strat) (nt : Char) (e : Entry) : Strat :=
  let s' := if (s.lookup e.sampling_date).isSome then s
            else s ++ [(e.sampling_date, ⟨syms.map (fun c => (c, 0)), 0⟩)]
  bumpDate s' e.sampling_date nt e.count

/-- The stratification loop over `zip(symbols, coverage_results)`.  Iterating
a failed result (`data` is `None`) raises `TypeError` in Python, which this
models as the error case. -/
def stratifyAux (syms : List Char) :
    Strat → List (Char × Option (List Entry)) → Except String Strat
  | s, [] => .ok s
  | _, (_, none) :: _ => .error "TypeError: NoneType object is not iterable"
  | s, (nt, some es) :: rest =>
      stratifyAux syms (es.foldl (fun s2 e => addEntry syms s2 nt e) s) rest

/-- `stratified_results` built from scratch. -/
def stratify (syms : List Char) (pairs : List (Char × Option (List Entry))) :
    Except String Strat :=
  stratifyAux syms [] pairs

/-- `sum(entry['count'] for entry in item['data']) if item['data'] else 0`. -/
def totalCount : Option (List Entry) → Nat
  | some es => (es.map (fun e => e.count)).sum
  | none => 0

/-- The query strings issued for one mutation: the position prefix
(`mutation[:-1]`) followed by each symbol of the alphabet. -/
def queryPlan (syms : List Char) (m : List Char) : List (List Char) :=
  syms.map (fun s => m.dropLast ++ [s])

/-- `zip(symbols, coverage_results)`: each symbol paired with the service
response to its query. -/
def resultsFor (syms : List Char) (svc : List Char → Option (List Entry))
    (m : List Char) : List (Char × Option (List Entry)) :=
  (syms.zip (queryPlan syms m)).map (fun p => (p.1, svc p.2))

/-- `coverage_data`: per-symbol total count over the whole date range. -/
def coverageData (syms : List Char) (svc : List Char → Option (List Entry))
    (m : List Char) : List (Char × Nat) :=
  (resultsFor syms svc m).map (fun p => (p.1, totalCount p.2))

/-- `total_coverage = sum(coverage_data.values())`. -/
def totalCoverage (syms : List Char) (svc : List Char → Option (List Entry))
    (m : List Char) : Nat :=
  ((coverageData syms svc m).map (fun p => p.2)).sum

/-- `frequency = coverage_data.get(target_symbol, 0) / total_coverage if
total_coverage > 0 else 0`. -/
def overallFrequency (syms : List Char) (svc : List Char → Option (List Entry))
    (m : List Char) (target : Char) : ℚ :=
  if 0 < totalCoverage syms svc m then
    (((coverageData syms svc m).lookup target).getD 0 : ℚ) / (totalCoverage syms svc m : ℚ)
  else 0

/-- The `stratified` output list: per-date coverage, with frequency and count
replaced by the sentinel `"NA"` whenever the coverage of that date is zero. -/
def stratRecords (target : Char) (strat : Strat) : List StratRecord :=
  strat.map (fun p =>
    let cnt : Nat := (p.2.counts.lookup target).getD 0
    { sampling_date := p.1
      coverage := p.2.coverage
      frequency := if 0 < p.2.coverage then .val ((cnt : ℚ) / (p.2.coverage : ℚ)) else .na
      count := if 0 < p.2.coverage then .val cnt else .na })

/-- The per-mutation body of the `for mutation in mutations` loop, for a given
symbol alphabet (the nucleotide and the amino-acid branches of the Python
function are this same aggregation instantiated with their alphabets). -/
def aggregateOne (syms : List Char) (svc : List Char → Option (List Entry))
    (m : List Char) (target : Char) : Except String MutResult :=
  match stratify syms (resultsFor syms svc m) with
  | .error e => .error e
  | .ok strat =>
      .ok { mutation := m
            coverage := totalCoverage syms svc m
            frequency := overallFrequency syms svc m target
            counts := coverageData syms svc m
            stratified := stratRecords target strat }

/-- `WiseLoculusLapis.fetch_mutation_counts_and_coverage`.  The guard at the
top of the function raises `NotImplementedError` for every mutation type
other than `"nucleotide"` (so the amino-acid branch in its body is
unreachable); `mutation[-1]` on an empty mutation string raises `IndexError`. -/
def fetch_mutation_counts_and_coverage (mutation_type : String)
    (mutations : List (List Char)) (svc : List Char → Option (List Entry)) :
    Except String (List MutResult) :=
  if mutation_type ≠ "nucleotide" then
    .error "NotImplementedError: Unknown mutation type"
  else
    mutations.mapM (fun m =>
      match m.getLast? with
      | none => .error "IndexError: string index out of range"
      | some target => aggregateOne nucleotides svc m target)

/-- Modelled from the spec: the per-date (and, per §4.2, also overall)
frequency formula — `count(target)/coverage` when `coverage > 0`, else the
sentinel `"NA"`. -/
def specFrequency (targetCount coverage : Nat) : FreqVal :=
  if 0 < coverage then .val ((targetCount : ℚ) / (coverage : ℚ)) else .na

/-- Spec-side count of symbol `nt` on date `d` for mutation `m`: the sum of
the counts the service reports for the query `m[:-1] ++ nt` on date `d`. -/
def entryCountFor (es : List Entry) (d : String) : Nat :=
  ((es.filter (fun e => e.sampling_date == d)).map (fun e => e.count)).sum

/-- Spec-side per-date count extracted from the service model. -/
def dateCount (svc : List Char → Option (List Entry)) (m : List Char)
    (nt : Char) (d : String) : Nat :=
  entryCountFor ((svc (m.dropLast ++ [nt])).getD []) d

/-! ### Correctness of the stratification fold

The stratification loop is a fold over the stream of `(symbol, entry)` events
obtained by walking `zip(symbols, coverage_results)`.  `stratShape` is the
invariant tying the accumulated dictionary to the processed events. -/

/-- Sum of counts of events for symbol `nt` on date `d`. -/
def evCount (events : List (Char × Entry)) (nt : Char) (d : String) : Nat :=
  ((events.filter (fun ev => ev.1 == nt && ev.2.sampling_date == d)).map
    (fun ev => ev.2.count)).sum

/-- Sum of counts of events on date `d` over all symbols. -/
def evCov (events : List (Char × Entry)) (d : String) : Nat :=
  ((events.filter (fun ev => ev.2.sampling_date == d)).map (fun ev => ev.2.count)).sum

/-- The event stream of a list of `(symbol, data)` pairs. -/
def eventsOf (vals : List (Char × List Entry)) : List (Char × Entry) :=
  (vals.map (fun p => p.2.map (fun e => (p.1, e)))).flatten

/-- Invariant of the stratification fold: every date bucket stores, for every
symbol of the alphabet, the total processed count of that symbol on that
date; keys are distinct; a date key exists exactly when an event with that
date was processed; and the bucket coverages sum to the processed counts. -/
def stratShape (syms : List Char) (events : List (Char × Entry)) (s : Strat) : Prop :=
  (∀ p ∈ s, p.2.counts = syms.map (fun c => (c, evCount events c p.1)) ∧
      p.2.coverage = evCov events p.1) ∧
  (s.map (fun p => p.1)).Nodup ∧
  (∀ d : String, (∃ p ∈ s, p.1 = d) ↔ (∃ ev ∈ events, ev.2.sampling_date = d)) ∧
  (s.map (fun p => p.2.coverage)).sum = (events.map (fun ev => ev.2.count)).sum

theorem lookup_isSome_iff {β : Type} (s : List (String × β)) (d : String) :
    (s.lookup d).isSome = true ↔ ∃ p ∈ s, p.1 = d := by
  induction s with
  | nil => simp [List.lookup]
  | cons x s ih =>
    obtain ⟨k, v⟩ := x
    simp only [List.lookup]
    by_cases hk : d = k
    · subst hk
      simp only [beq_self_eq_true]
      constructor
      · intro _
        exact ⟨(d, v), List.mem_cons_self _ _, rfl⟩
      · intro _
        rfl
    · have hbeq : (d == k) = false := beq_eq_false_iff_ne.mpr hk
      simp only [hbeq]
      rw [ih]
      constructor
      · rintro ⟨p, hp, hpd⟩
        exact ⟨p, List.mem_cons_of_mem _ hp, hpd⟩
      · rintro ⟨p, hp, hpd⟩
        rcases List.mem_cons.mp hp with h | h
        · exact absurd (by rw [h] at hpd; exact hpd.symm) hk
        · exact ⟨p, h, hpd⟩

theorem evCount_append (xs ys : List (Char × Entry)) (nt : Char) (d : String) :
    evCount (xs ++ ys) nt d = evCount xs nt d + evCount ys nt d := by
  simp [evCount, List.filter_append]

theorem evCov_append (xs ys : List (Char × Entry)) (d : String) :
    evCov (xs ++ ys) d = evCov xs d + evCov ys d := by
  simp [evCov, List.filter_append]

theorem evCount_singleton (nt c : Char) (e : Entry) (d : String) :
    evCount [(nt, e)] c d =
      if nt = c ∧ e.sampling_date = d then e.count else 0 := by
  by_cases h1 : nt = c <;> by_cases h2 : e.sampling_date = d <;>
    simp [evCount, h1, h2]

theorem evCov_singleton (nt : Char) (e : Entry) (d : String) :
    evCov [(nt, e)] d = if e.sampling_date = d then e.count else 0 := by
  by_cases h2 : e.sampling_date = d <;> simp [evCov, h2]

theorem updateAssoc_map (syms : List Char) (f : Char → Nat) (nt : Char) (k : Nat) :
    updateAssoc (syms.map (fun c => (c, f c))) nt k =
      syms.map (fun c => (c, if c = nt then f c + k else f c)) := by
  simp only [updateAssoc, List.map_map]
  apply List.map_congr_left
  intro c _
  by_cases hc : c = nt <;> simp [hc]

theorem bumpDate_keys (s : Strat) (d : String) (nt : Char) (c : Nat) :
    (bumpDate s d nt c).map (fun p => p.1) = s.map (fun p => p.1) := by
  simp only [bumpDate, List.map_map]
  apply List.map_congr_left
  intro p _
  by_cases hp : p.1 = d <;> simp [hp]

theorem bumpDate_of_not_mem {s : Strat} {d : String} {nt : Char} {c : Nat}
    (h : ∀ p ∈ s, p.1 ≠ d) : bumpDate s d nt c = s := by
  unfold bumpDate
  rw [show s.map (fun p => if p.1 = d then (p.1, (⟨updateAssoc p.2.counts nt c, p.2.coverage + c⟩ : DateAcc)) else p) = s.map id by
    apply List.map_congr_left; intro p hp; simp [h p hp]]
  exact List.map_id s

theorem covSum_bumpDate {s : Strat} {d : String} {nt : Char} {c : Nat}
    (hnd : (s.map (fun p => p.1)).Nodup) (hmem : ∃ p ∈ s, p.1 = d) :
    ((bumpDate s d nt c).map (fun p => p.2.coverage)).sum =
      (s.map (fun p => p.2.coverage)).sum + c := by
  induction s with
  | nil => simp at hmem
  | cons x s ih =>
    simp only [List.map_cons, List.nodup_cons] at hnd
    by_cases hx : x.1 = d
    · have hrest : ∀ p ∈ s, p.1 ≠ d := by
        intro p hp hpd
        exact hnd.1 (by rw [hx, ← hpd]; exact List.mem_map.mpr ⟨p, hp, rfl⟩)
      simp only [bumpDate, List.map_cons, if_pos hx]
      rw [show s.map (fun p => if p.1 = d then (p.1, (⟨updateAssoc p.2.counts nt c, p.2.coverage + c⟩ : DateAcc)) else p) = bumpDate s d nt c from rfl]
      rw [bumpDate_of_not_mem hrest]
      simp [List.sum_cons]
      omega
    · have hmem' : ∃ p ∈ s, p.1 = d := by
        rcases hmem with ⟨p, hp, hpd⟩
        rcases List.mem_cons.mp hp with h | h
        · exact absurd (h ▸ hpd) hx
        · exact ⟨p, h, hpd⟩
      simp only [bumpDate, List.map_cons, if_neg hx]
      rw [show s.map (fun p => if p.1 = d then (p.1, (⟨updateAssoc p.2.counts nt c, p.2.coverage + c⟩ : DateAcc)) else p) = bumpDate s d nt c from rfl]
      simp only [List.sum_cons]
      rw [ih hnd.2 hmem']
      omega

theorem evCount_eq_zero {events : List (Char × Entry)} {nt : Char} {d : String}
    (h : ∀ ev ∈ events, ev.2.sampling_date ≠ d) : evCount events nt d = 0 := by
  unfold evCount
  rw [List.filter_eq_nil_iff.mpr]
  · rfl
  · intro ev hev
    simp [h ev hev]

theorem evCov_eq_zero {events : List (Char × Entry)} {d : String}
    (h : ∀ ev ∈ events, ev.2.sampling_date ≠ d) : evCov events d = 0 := by
  unfold evCov
  rw [List.filter_eq_nil_iff.mpr]
  · rfl
  · intro ev hev
    simp [h ev hev]

theorem stratShape_addEntry {syms : List Char} {events : List (Char × Entry)} {s : Strat}
    {nt : Char} {e : Entry}
    (hinv : stratShape syms events s) :
    stratShape syms (events ++ [(nt, e)]) (addEntry syms s nt e) := by
  obtain ⟨hshape, hnd, hmem, hsum⟩ := hinv
  by_cases hex : (s.lookup e.sampling_date).isSome = true
  · -- the date bucket already exists: only `bumpDate` happens
    have hexm : ∃ p ∈ s, p.1 = e.sampling_date := (lookup_isSome_iff s _).mp hex
    have haddEq : addEntry syms s nt e = bumpDate s e.sampling_date nt e.count := by
      simp only [addEntry, hex, if_true]
    rw [haddEq]
    refine ⟨?_, ?_, ?_, ?_⟩
    · intro q hq
      obtain ⟨p, hp, hpq⟩ := List.mem_map.mp hq
      obtain ⟨hcounts, hcov⟩ := hshape p hp
      by_cases hpd : p.1 = e.sampling_date
      · rw [if_pos hpd] at hpq
        subst hpq
        constructor
        · simp only [hcounts, updateAssoc_map]
          apply List.map_congr_left
          intro c _
          rw [evCount_append, evCount_singleton]
          by_cases hc : c = nt
          · simp [hc, hpd]
          · have : ¬ nt = c := fun hcon => hc hcon.symm
            simp [hc, this]
        · simp only [hcov]
          rw [evCov_append, evCov_singleton, if_pos hpd.symm]
      · rw [if_neg hpd] at hpq
        subst hpq
        constructor
        · rw [hcounts]
          apply List.map_congr_left
          intro c _
          rw [evCount_append, evCount_singleton,
            if_neg (fun h : nt = c ∧ e.sampling_date = p.1 => hpd h.2.symm)]
          simp
        · rw [hcov, evCov_append, evCov_singleton,
            if_neg (fun h : e.sampling_date = p.1 => hpd h.symm)]
          simp
    · rw [bumpDate_keys]; exact hnd
    · intro d'
      have hkey : (∃ q ∈ bumpDate s e.sampling_date nt e.count, q.1 = d') ↔ ∃ p ∈ s, p.1 = d' := by
        constructor
        · rintro ⟨q, hq, rfl⟩
          have : q.1 ∈ (bumpDate s e.sampling_date nt e.count).map (fun p => p.1) :=
            List.mem_map.mpr ⟨q, hq, rfl⟩
          rw [bumpDate_keys] at this
          obtain ⟨p, hp, hpq⟩ := List.mem_map.mp this
          exact ⟨p, hp, hpq⟩
        · rintro ⟨p, hp, rfl⟩
          have : p.1 ∈ (s.map (fun p => p.1)) := List.mem_map.mpr ⟨p, hp, rfl⟩
          rw [← bumpDate_keys s e.sampling_date nt e.count] at this
          obtain ⟨q, hq, hqp⟩ := List.mem_map.mp this
          exact ⟨q, hq, hqp⟩
      rw [hkey, hmem d']
      constructor
      · rintro ⟨ev, hev, hevd⟩
        exact ⟨ev, by simp [hev], hevd⟩
      · rintro ⟨ev, hev, hevd⟩
        rcases List.mem_append.mp hev with h | h
        · exact ⟨ev, h, hevd⟩
        · obtain rfl : ev = (nt, e) := by simpa using h
          apply (hmem d').mp
          rcases hexm with ⟨p, hp, hpd⟩
          exact ⟨p, hp, by rw [hpd]; exact hevd⟩
    · rw [covSum_bumpDate hnd hexm, hsum]
      simp
  · -- fresh date: a zeroed bucket is appended, then bumped
    have hnotin : ∀ p ∈ s, p.1 ≠ e.sampling_date := by
      intro p hp hpd
      exact hex ((lookup_isSome_iff s _).mpr ⟨p, hp, hpd⟩)
    have hnoev : ∀ ev ∈ events, ev.2.sampling_date ≠ e.sampling_date := by
      intro ev hev hevd
      rcases (hmem e.sampling_date).mpr ⟨ev, hev, hevd⟩ with ⟨p, hp, hpd⟩
      exact hnotin p hp hpd
    have hexFalse : (s.lookup e.sampling_date).isSome = false := by
      cases hcase : (s.lookup e.sampling_date).isSome
      · rfl
      · exact absurd hcase hex
    have haddEq : addEntry syms s nt e =
        s ++ [(e.sampling_date,
          ⟨updateAssoc (syms.map (fun c => (c, 0))) nt e.count, 0 + e.count⟩)] := by
      simp only [addEntry, hexFalse, Bool.false_eq_true, if_false]
      unfold bumpDate
      rw [List.map_append]
      congr 1
      · exact bumpDate_of_not_mem hnotin
      · simp
    rw [haddEq]
    refine ⟨?_, ?_, ?_, ?_⟩
    · intro q hq
      rcases List.mem_append.mp hq with hqs | hqnew
      · obtain ⟨hcounts, hcov⟩ := hshape q hqs
        have hqd : q.1 ≠ e.sampling_date := hnotin q hqs
        constructor
        · rw [hcounts]
          apply List.map_congr_left
          intro c _
          rw [evCount_append, evCount_singleton,
            if_neg (fun h : nt = c ∧ e.sampling_date = q.1 => hqd h.2.symm)]
          simp
        · rw [hcov, evCov_append, evCov_singleton,
            if_neg (fun h : e.sampling_date = q.1 => hqd h.symm)]
          simp
      · obtain rfl :
          q = (e.sampling_date,
            ⟨updateAssoc (syms.map (fun c => (c, 0))) nt e.count, 0 + e.count⟩) := by
          simpa using hqnew
        constructor
        · rw [updateAssoc_map]
          apply List.map_congr_left
          intro c _
          rw [evCount_append, evCount_singleton,
            evCount_eq_zero hnoev]
          by_cases hc : c = nt
          · simp [hc]
          · have : ¬ nt = c := fun hcon => hc hcon.symm
            simp [hc, this]
        · simp only []
          rw [evCov_append, evCov_singleton, if_pos rfl, evCov_eq_zero hnoev]
    · rw [List.map_append, List.nodup_append]
      refine ⟨hnd, by simp, ?_⟩
      intro a ha hb
      simp only [List.map_cons, List.map_nil, List.mem_singleton] at hb
      obtain ⟨p, hp, hpa⟩ := List.mem_map.mp ha
      exact hnotin p hp (hpa.trans hb)
    · intro d'
      constructor
      · rintro ⟨q, hq, rfl⟩
        rcases List.mem_append.mp hq with hqs | hqnew
        · rcases (hmem q.1).mp ⟨q, hqs, rfl⟩ with ⟨ev, hev, hevd⟩
          exact ⟨ev, by simp [hev], hevd⟩
        · have : q.1 = e.sampling_date := by
            simp only [List.mem_singleton] at hqnew
            rw [hqnew]
          exact ⟨(nt, e), by simp, this.symm⟩
      · rintro ⟨ev, hev, hevd⟩
        rcases List.mem_append.mp hev with h | h
        · rcases (hmem d').mpr ⟨ev, h, hevd⟩ with ⟨p, hp, hpd⟩
          exact ⟨p, by simp [hp], hpd⟩
        · obtain rfl : ev = (nt, e) := by simpa using h
          refine ⟨(e.sampling_date,
            ⟨updateAssoc (syms.map (fun c => (c, 0))) nt e.count, 0 + e.count⟩), by simp, ?_⟩
          simpa using hevd
    · rw [List.map_append, List.sum_append, List.map_append, List.sum_append, hsum]
      simp

theorem stratShape_foldl (syms : List Char) (events : List (Char × Entry))
    (h : ∀ ev ∈ events, ev.1 ∈ syms) :
    stratShape syms events
      (events.foldl (fun s2 ev => addEntry syms s2 ev.1 ev.2) []) := by
  induction events using List.reverseRecOn with
  | nil =>
    refine ⟨by simp, by simp, by simp, by simp⟩
  | append_singleton evs ev ih =>
    rw [List.foldl_append]
    simp only [List.foldl_cons, List.foldl_nil]
    have hstep := @stratShape_addEntry syms evs
      (evs.foldl (fun s2 ev2 => addEntry syms s2 ev2.1 ev2.2) []) ev.1 ev.2
      (ih (fun x hx => h x (by simp [hx])))
    simpa using hstep

theorem stratifyAux_all_some (syms : List Char) :
    ∀ (vals : List (Char × List Entry)) (s : Strat),
      stratifyAux syms s (vals.map (fun p => (p.1, some p.2)))
        = .ok ((eventsOf vals).foldl (fun s2 ev => addEntry syms s2 ev.1 ev.2) s) := by
  intro vals
  induction vals with
  | nil => intro s; rfl
  | cons v vals ih =>
    intro s
    obtain ⟨nt, es⟩ := v
    simp only [List.map_cons, stratifyAux, ih]
    congr 1
    simp only [eventsOf, List.map_cons, List.flatten_cons, List.foldl_append]
    rw [List.foldl_map]

/-- The event stream of the four nucleotide results, in processing order. -/
def nucEvents (esA esT esC esG : List Entry) : List (Char × Entry) :=
  esA.map (fun e => ('A', e)) ++ esT.map (fun e => ('T', e)) ++
    esC.map (fun e => ('C', e)) ++ esG.map (fun e => ('G', e))

theorem evCount_map_pair (es : List Entry) (nt c : Char) (d : String) :
    evCount (es.map (fun e => (nt, e))) c d =
      if nt = c then entryCountFor es d else 0 := by
  by_cases hc : nt = c
  · subst hc
    simp [evCount, entryCountFor, List.filter_map, Function.comp_def]
  · have : ∀ e ∈ es, ¬ ((nt == c) && (e.sampling_date == d)) = true := by
      intro e _
      simp [hc]
    simp only [evCount, List.filter_map]
    rw [List.filter_eq_nil_iff.mpr (by intro e he; simpa using this e he)]
    simp [hc]

theorem evCov_map_pair (es : List Entry) (nt : Char) (d : String) :
    evCov (es.map (fun e => (nt, e))) d = entryCountFor es d := by
  simp [evCov, entryCountFor, List.filter_map, Function.comp_def]

theorem evCount_le_evCov (events : List (Char × Entry)) (nt : Char) (d : String) :
    evCount events nt d ≤ evCov events d := by
  induction events with
  | nil => simp [evCount, evCov]
  | cons ev evs ih =>
    unfold evCount evCov at *
    rw [List.filter_cons, List.filter_cons]
    by_cases h2 : (ev.2.sampling_date == d) = true
    · rw [if_pos h2]
      by_cases h1 : (ev.1 == nt) = true
      · rw [if_pos (show (ev.1 == nt && ev.2.sampling_date == d) = true by rw [h1, h2]; rfl)]
        simp only [List.map_cons, List.sum_cons]
        omega
      · rw [Bool.not_eq_true] at h1
        rw [if_neg (show ¬ (ev.1 == nt && ev.2.sampling_date == d) = true by rw [h1]; simp)]
        simp only [List.map_cons, List.sum_cons]
        omega
    · rw [Bool.not_eq_true] at h2
      rw [if_neg (show ¬ (ev.1 == nt && ev.2.sampling_date == d) = true by rw [h2]; simp),
        if_neg (show ¬ (ev.2.sampling_date == d) = true by rw [h2]; simp)]
      exact ih

theorem lookup_map_self (syms : List Char) (f : Char → Nat) (t : Char) :
    (syms.map (fun c => (c, f c))).lookup t =
      if t ∈ syms then some (f t) else none := by
  induction syms with
  | nil => simp [List.lookup]
  | cons c syms ih =>
    by_cases hc : t = c
    · subst hc
      simp [List.lookup]
    · have : (t == c) = false := beq_eq_false_iff_ne.mpr hc
      simp only [List.map_cons, List.lookup, this, ih]
      by_cases hmem : t ∈ syms <;> simp [hmem, hc]

theorem mem_le_sum_map (syms : List Char) (f : Char → Nat) (t : Char) (h : t ∈ syms) :
    f t ≤ (syms.map f).sum := by
  induction syms with
  | nil => simp at h
  | cons c syms ih =>
    rcases List.mem_cons.mp h with rfl | h
    · simp only [List.map_cons, List.sum_cons]
      omega
    · simp only [List.map_cons, List.sum_cons]
      have := ih h
      omega

theorem resultsFor_nuc (svc : List Char → Option (List Entry)) (m : List Char) :
    resultsFor nucleotides svc m =
      [('A', svc (m.dropLast ++ ['A'])), ('T', svc (m.dropLast ++ ['T'])),
       ('C', svc (m.dropLast ++ ['C'])), ('G', svc (m.dropLast ++ ['G']))] := by
  rfl

/-- Inversion of a successful nucleotide aggregation: the four queries all
succeeded and the result fields are the stated aggregations of their data. -/
theorem aggregateOne_nuc_ok {svc : List Char → Option (List Entry)}
    {m : List Char} {target : Char} {r : MutResult}
    (h : aggregateOne nucleotides svc m target = .ok r) :
    ∃ esA esT esC esG,
      svc (m.dropLast ++ ['A']) = some esA ∧
      svc (m.dropLast ++ ['T']) = some esT ∧
      svc (m.dropLast ++ ['C']) = some esC ∧
      svc (m.dropLast ++ ['G']) = some esG ∧
      r = { mutation := m
            coverage := totalCoverage nucleotides svc m
            frequency := overallFrequency nucleotides svc m target
            counts := coverageData nucleotides svc m
            stratified := stratRecords target
              ((nucEvents esA esT esC esG).foldl
                (fun s2 ev => addEntry nucleotides s2 ev.1 ev.2) []) } := by
  rcases hA : svc (m.dropLast ++ ['A']) with _ | esA
  · simp only [aggregateOne, stratify, resultsFor_nuc, hA, stratifyAux] at h
    exact Except.noConfusion h
  rcases hT : svc (m.dropLast ++ ['T']) with _ | esT
  · simp only [aggregateOne, stratify, resultsFor_nuc, hA, hT, stratifyAux] at h
    exact Except.noConfusion h
  rcases hC : svc (m.dropLast ++ ['C']) with _ | esC
  · simp only [aggregateOne, stratify, resultsFor_nuc, hA, hT, hC, stratifyAux] at h
    exact Except.noConfusion h
  rcases hG : svc (m.dropLast ++ ['G']) with _ | esG
  · simp only [aggregateOne, stratify, resultsFor_nuc, hA, hT, hC, hG, stratifyAux] at h
    exact Except.noConfusion h
  refine ⟨esA, esT, esC, esG, rfl, rfl, rfl, rfl, ?_⟩
  have hfold : (nucEvents esA esT esC esG).foldl
      (fun s2 ev => addEntry nucleotides s2 ev.1 ev.2) [] =
      esG.foldl (fun s2 e => addEntry nucleotides s2 'G' e)
        (esC.foldl (fun s2 e => addEntry nucleotides s2 'C' e)
          (esT.foldl (fun s2 e => addEntry nucleotides s2 'T' e)
            (esA.foldl (fun s2 e => addEntry nucleotides s2 'A' e) []))) := by
    simp [nucEvents, List.foldl_append, List.foldl_map]
  simp only [aggregateOne, stratify, resultsFor_nuc, hA, hT, hC, hG, stratifyAux] at h
  rw [hfold]
  injection h with h
  exact h.symm

/-! ## SignatureMatrixBuilder: the mutation-variant matrix
(src/app/subpages/variant_signature_composer.py, lines 476-515)

The page collects the union of signature mutations, sorts it (`sorted`), builds
one row per mutation whose indicator cells follow the *insertion order* of
`combined_variants.variants`, sorts the rows by descending genomic position
(`list.sort(key=..., reverse=True)`, a stable sort), sorts the column *labels*
alphabetically, and then constructs `pd.DataFrame(matrix_data, columns=columns)`
— which assigns the sorted labels positionally to the unsorted data columns. -/

/-- A variant as the page holds it: pangolin name and signature mutations. -/
structure PyVariant where
  name : String
  signature_mutations : List String
deriving DecidableEq

/-- Python string comparison on the ASCII fragment (code-point lexicographic). -/
def charListLe : List Char → List Char → Bool
  | [], _ => true
  | _ :: _, [] => false
  | a :: as, b :: bs => if a = b then charListLe as bs else decide (a.toNat < b.toNat)

/-- `a <= b` for Python strings. -/
def strLe (a b : String) : Bool := charListLe a.toList b.toList

/-- Stable insertion (ascending): `x` goes after every element `≤` it. -/
def insertAscBy {α : Type} (le : α → α → Bool) (x : α) : List α → List α
  | [] => [x]
  | y :: ys => if le y x then y :: insertAscBy le x ys else x :: y :: ys

/-- Stable ascending sort (the result of Python `sorted`/`list.sort`). -/
def sortAscBy {α : Type} (le : α → α → Bool) (l : List α) : List α :=
  l.foldl (fun acc x => insertAscBy le x acc) []

/-- Stable insertion (descending by key): `x` goes after every element whose
key is `≥` its own, so equal keys keep their original order. -/
def insertDescByKey {α : Type} (key : α → Nat) (x : α) : List α → List α
  | [] => [x]
  | y :: ys => if key x ≤ key y then y :: insertDescByKey key x ys else x :: y :: ys

/-- Stable descending sort by key (`list.sort(key=..., reverse=True)`). -/
def sortDescByKey {α : Type} (key : α → Nat) (l : List α) : List α :=
  l.foldl (fun acc x => insertDescByKey key x acc) []

/-- `extract_position`: the same regex as `validate_mutation_string`; the
position group as an integer, `0` if the regex fails. -/
def extract_position (s : String) : Nat :=
  match regexDecompose (s.toList.map pyUpper) with
  | some (_, ds, _) => digitsToNat ds
  | none => 0

/-- The constructed `matrix_df`: the alphabetically sorted variant column
labels (after the leading `"Mutation"` label) and the rows, each carrying the
mutation string and the indicator cells, which remain in the insertion order
of the variants. -/
structure MutationMatrix where
  colNames : List String
  rows : List (String × List Nat)
deriving DecidableEq

/-- The matrix construction of the composer page. -/
def build_matrix (variants : List PyVariant) : MutationMatrix :=
  let all_mutations :=
    sortAscBy strLe ((variants.map (fun v => v.signature_mutations)).flatten.dedup)
  let matrix_data := all_mutations.map (fun mstr =>
    (mstr, variants.map (fun v => if mstr ∈ v.signature_mutations then 1 else 0)))
  let sorted_rows := sortDescByKey (fun row => extract_position row.1) matrix_data
  let variant_columns := sortAscBy strLe (variants.map (fun v => v.name))
  ⟨variant_columns, sorted_rows⟩

/-- `matrix_df` cell access: the row of mutation `mstr`, at the data column
positioned where label `v` sits in the sorted column list. -/
def matrix_cell (mat : MutationMatrix) (mstr v : String) : Option Nat :=
  (mat.rows.lookup mstr).bind (fun bits => bits[mat.colNames.indexOf v]?)

/-! ## Variant registry (src/app/state.py) and the guarded add flow
(src/app/subpages/variant_signature_composer.py, lines 280-316)

`st.session_state.variant_registry` is a dict keyed by variant name;
`register_variant` is a plain dict assignment, and the page guards every
insertion with `is_variant_registered`, warning and leaving the registry
untouched on a name collision. -/

/-- `VariantSource` of src/app/state.py. -/
inductive VariantSource
  | curated
  | custom_covspectrum
  | custom_manual
deriving DecidableEq

/-- A value of the `variant_registry` dict. -/
structure RegEntry where
  name : String
  signature_mutations : List String
  source : VariantSource
deriving DecidableEq

/-- The registry dict, modelled as an insertion-ordered association list. -/
abbrev Registry := List (String × RegEntry)

/-- `VariantSignatureComposerState.is_variant_registered`. -/
def is_variant_registered (reg : Registry) (name : String) : Bool :=
  (reg.lookup name).isSome

/-- `VariantSignatureComposerState.register_variant`: dict assignment
(overwrites in place if the key exists, appends otherwise). -/
def register_variant (reg : Registry) (name : String) (muts : List String)
    (src : VariantSource) : Registry :=
  if (reg.lookup name).isSome then
    reg.map (fun p => if p.1 = name then (name, ⟨name, muts, src⟩) else p)
  else reg ++ [(name, ⟨name, muts, src⟩)]

/-- The "Add Custom Variant" flow of the composer page: check
`is_variant_registered` first; on a collision warn and do not register, else
register.  The error value carries the warning text. -/
def add_custom_variant (reg : Registry) (name : String) (muts : List String)
    (src : VariantSource) : Except String Registry :=
  if is_variant_registered reg name then
    .error "Variant already exists in the list. Please choose a different name."
  else .ok (register_variant reg name muts src)

/-! ## TaskOrchestrator / DeconvolutionPipeline
(src/worker/tasks.py `run_deconvolve` and src/worker/deconvolve.py `devconvolve`)

`run_deconvolve` persists progress records (`current`, `total`, `status`,
`partial_results`) under the task id; the message texts are modelled as
constructor tags carrying the dynamic part.  `devconvolve` calls `exit(1)` on
a `CalledProcessError` of the external `lollipop` invocation — in Python that
raises `SystemExit`, which does NOT inherit from `Exception`, so the
`except Exception` handler of `run_deconvolve` (tasks.py line 198) does not
catch it; a malformed JSON output raises `json.JSONDecodeError`, an
`Exception`, which the handler does catch. -/

/-- The `status` strings written by `run_deconvolve`, with their source line:
`preparingInputData` (109), `preparingDeconvolution` (122), `inputTypes`
(134, the stage-1.5 debug write), `noParsingNeeded` (138), `unpickledOk`
(150), `jsonParsedOk` (155), `parseBothFailed` (157), `processError` (160),
`runningDeconvolution` (183), `processingResults` (187), `completed` (192),
`errorStatus` (201, the `f"Error: ..."` write of the exception handler). -/
inductive TaskStatus
  | preparingInputData
  | preparingDeconvolution
  | inputTypes
  | noParsingNeeded
  | unpickledOk
  | jsonParsedOk
  | parseBothFailed (msg : String)
  | processError (msg : String)
  | runningDeconvolution
  | processingResults
  | completed
  | errorStatus (msg : String)
deriving DecidableEq

/-- One persisted progress record: `current` and `total` are the numbers
stored in the JSON payload (`1.5` is written at the debug stage, hence `ℚ`);
`resultsAttached` is whether `partial_results` is non-null. -/
structure ProgressRecord where
  current : ℚ
  total : ℚ
  status : TaskStatus
  resultsAttached : Bool
deriving DecidableEq

/-- A raised Python exception: `SystemExit` does not inherit `Exception`. -/
inductive PyExc
  | exception (msg : String)
  | systemExit (code : Nat)
deriving DecidableEq

/-- Outcome of the external `lollipop` invocation inside `devconvolve`. -/
inductive EngineCase
  | engineOk
  | nonZeroExit (stderr : String)
  | malformedOutput (msg : String)
deriving DecidableEq

/-- Outcome of the input-deserialization block of `run_deconvolve`
(tasks.py lines 131-161). -/
inductive DeserializeCase
  | alreadyDataFrames
  | strPickleOk
  | strJsonOk
  | strBothFail (msg : String)
  | nonStrInputs
deriving DecidableEq

/-- How the Celery task ends: a normal return (`SUCCEEDED`), an exception
caught and re-raised by the handler after storing the error (`FAILED` with the
message), or a `SystemExit` that bypasses the handler entirely. -/
inductive JobEnd
  | succeeded
  | failedCaught (msg : String)
  | abortedSystemExit (code : Nat)
deriving DecidableEq

/-- `devconvolve` (deconvolve.py): a `CalledProcessError` from the `lollipop`
subprocess is printed and answered with `exit(1)` (line 368), i.e.
`SystemExit 1`; a malformed `deconvolved.json` makes `json.loads` (line 357)
raise a `JSONDecodeError`, an ordinary `Exception`. -/
def devconvolve : EngineCase → Except PyExc Unit
  | .engineOk => .ok ()
  | .nonZeroExit _ => .error (.systemExit 1)
  | .malformedOutput msg => .error (.exception msg)

/-- `run_deconvolve` (tasks.py): the chronological list of progress records
written under the task id, and how the task ends.  The initial record has
`current = 0` (line 106); the deserialization block writes the `1.5` debug
record and, except in the not-a-string fall-through, a stage-2 record; stage 3
precedes the engine call; on success stages 4 and 5 follow, the stage-5 record
being the only one with non-null `partial_results`; an `Exception` reaches the
handler, which stores `Error: ...` without changing `current`; a `SystemExit`
writes nothing further. -/
def run_deconvolve (d : DeserializeCase) (e : EngineCase) :
    List ProgressRecord × JobEnd :=
  let base : List ProgressRecord :=
    [⟨0, 5, .preparingInputData, false⟩,
     ⟨1, 5, .preparingDeconvolution, false⟩,
     ⟨3/2, 5, .inputTypes, false⟩]
  match d with
  | .strBothFail msg =>
      (base ++ [⟨2, 5, .parseBothFailed msg, false⟩,
                ⟨2, 5, .processError msg, false⟩,
                ⟨2, 5, .errorStatus msg, false⟩],
       .failedCaught msg)
  | _ =>
      let mid : List ProgressRecord :=
        match d with
        | .alreadyDataFrames => [⟨2, 5, .noParsingNeeded, false⟩]
        | .strPickleOk => [⟨2, 5, .unpickledOk, false⟩]
        | .strJsonOk => [⟨2, 5, .jsonParsedOk, false⟩]
        | _ => []
      let pre := base ++ mid ++ [⟨3, 5, .runningDeconvolution, false⟩]
      match devconvolve e with
      | .ok _ =>
          (pre ++ [⟨4, 5, .processingResults, false⟩, ⟨5, 5, .completed, true⟩],
           .succeeded)
      | .error (.exception msg) =>
          (pre ++ [⟨3, 5, .errorStatus msg, false⟩], .failedCaught msg)
      | .error (.systemExit c) => (pre, .abortedSystemExit c)

/-- Is a record the handler's `Error: ...` write? -/
def isErrorRecord (p : ProgressRecord) : Bool :=
  match p.status with
  | .errorStatus _ => true
  | _ => false

theorem nucEvents_fst (esA esT esC esG : List Entry) :
    ∀ ev ∈ nucEvents esA esT esC esG, ev.1 ∈ nucleotides := by
  intro ev hev
  simp only [nucEvents, List.mem_append, List.mem_map] at hev
  rcases hev with ((⟨e, _, rfl⟩ | ⟨e, _, rfl⟩) | ⟨e, _, rfl⟩) | ⟨e, _, rfl⟩ <;>
    simp [nucleotides]

theorem evCount_nucEvents (esA esT esC esG : List Entry) (c : Char) (d : String) :
    evCount (nucEvents esA esT esC esG) c d =
      (if 'A' = c then entryCountFor esA d else 0) +
      (if 'T' = c then entryCountFor esT d else 0) +
      (if 'C' = c then entryCountFor esC d else 0) +
      (if 'G' = c then entryCountFor esG d else 0) := by
  simp only [nucEvents, evCount_append, evCount_map_pair]

theorem evCov_nucEvents (esA esT esC esG : List Entry) (d : String) :
    evCov (nucEvents esA esT esC esG) d =
      entryCountFor esA d + entryCountFor esT d +
        entryCountFor esC d + entryCountFor esG d := by
  simp only [nucEvents, evCov_append, evCov_map_pair]

theorem evCount_eq_dateCount {svc : List Char → Option (List Entry)} {m : List Char}
    {esA esT esC esG : List Entry}
    (hA : svc (m.dropLast ++ ['A']) = some esA)
    (hT : svc (m.dropLast ++ ['T']) = some esT)
    (hC : svc (m.dropLast ++ ['C']) = some esC)
    (hG : svc (m.dropLast ++ ['G']) = some esG)
    {target : Char} (hmem : target ∈ nucleotides) (d : String) :
    evCount (nucEvents esA esT esC esG) target d = dateCount svc m target d := by
  fin_cases hmem <;>
    simp [evCount_nucEvents, dateCount, hA, hT, hC, hG]

theorem sum_events_nucEvents (esA esT esC esG : List Entry) :
    ((nucEvents esA esT esC esG).map (fun ev => ev.2.count)).sum =
      (esA.map (fun e => e.count)).sum + (esT.map (fun e => e.count)).sum +
        (esC.map (fun e => e.count)).sum + (esG.map (fun e => e.count)).sum := by
  simp only [nucEvents, List.map_append, List.sum_append, List.map_map, Function.comp_def]

theorem fetch_nuc_singleton_ok {svc : List Char → Option (List Entry)}
    {m : List Char} {target : Char} {r : MutResult}
    (hm : m.getLast? = some target)
    (h : fetch_mutation_counts_and_coverage "nucleotide" [m] svc = .ok [r]) :
    aggregateOne nucleotides svc m target = .ok r := by
  unfold fetch_mutation_counts_and_coverage at h
  rw [if_neg (by simp)] at h
  simp only [List.mapM_cons, List.mapM_nil, hm] at h
  rcases haggr : aggregateOne nucleotides svc m target with e | r2 <;> rw [haggr] at h
  · simp [Except.bind] at h
  · simp only [Except.bind, bind, pure, Except.pure, Except.ok.injEq,
      List.cons.injEq, and_true] at h
    rw [h]

/-! ## Claims -/

/-- Fixture: a variant named `"A"` whose signature set is `{"C1T"}`. -/
def variantA : PyVariant := ⟨"A", ["C1T"]⟩

/-- Fixture: a variant named `"B"` whose signature set is `{"C2T"}`. -/
def variantB : PyVariant := ⟨"B", ["C2T"]⟩

/-- Claim C1: the built mutation-variant matrix should have cell `(m, v) = 1`
iff `m` is in variant `v`'s signature-mutation set, independently of insertion
order.  The code violates this: `pd.DataFrame(matrix_data, columns=columns)`
is given alphabetically sorted column labels while the data cells stay in
variant insertion order, so with insertion order `[B, A]` the cell
`("C1T", "A")` reads `0` although `"C1T"` is A's signature mutation (with
order `[A, B]` it reads `1`), and the two insertion orders give different
matrices. -/
theorem c1_matrix_mislabels_columns :
    matrix_cell (build_matrix [variantB, variantA]) "C1T" "A" = some 0 ∧
    "C1T" ∈ variantA.signature_mutations ∧
    matrix_cell (build_matrix [variantA, variantB]) "C1T" "A" = some 1 ∧
    build_matrix [variantB, variantA] ≠ build_matrix [variantA, variantB] := by
  refine ⟨by decide, by decide, by decide, by decide⟩

/-- Fixture: a count service where the query for symbol `C` fails (the code
stores `data = None` for it) and every other query returns one dated count. -/
def svcOneFailed : List Char → Option (List Entry) := fun q =>
  if q = "A123C".toList then none else some [⟨"2024-01-15", 5⟩]

/-- Claim C2: a failed `(symbol, date)` query should contribute a zero count
and never abort the aggregation.  The code violates this: `coverage_data`
does guard the failed result (`... if item['data'] else 0`, so the symbol
would contribute `totalCount none = 0`), but the stratification loop iterates
`item['data']` unguarded, raising `TypeError` on `None` and aborting the
whole `fetch_mutation_counts_and_coverage` call. -/
theorem c2_failed_query_aborts_aggregation :
    fetch_mutation_counts_and_coverage "nucleotide" ["A123T".toList] svcOneFailed =
      .error "TypeError: NoneType object is not iterable" ∧
    svcOneFailed ("A123C".toList) = none ∧
    totalCount (svcOneFailed ("A123C".toList)) = 0 := by
  refine ⟨rfl, by decide, by decide⟩

/-- Claim C3: any engine failure or deserialization failure should end the
job `FAILED` with the error message stored in the progress record.  The code
violates this for a non-zero engine exit: `devconvolve` answers the
`CalledProcessError` with `exit(1)`, i.e. `SystemExit`, which the
`except Exception` handler of `run_deconvolve` does not catch — the task
aborts with no `Error: ...` record written, the last persisted status still
being `runningDeconvolution`.  Malformed engine output and deserialization
failures do reach the handler and behave as claimed. -/
theorem c3_engine_exit_bypasses_error_capture :
    (run_deconvolve .alreadyDataFrames (.nonZeroExit "lollipop exited with status 1")).2 =
        .abortedSystemExit 1 ∧
    ((run_deconvolve .alreadyDataFrames
        (.nonZeroExit "lollipop exited with status 1")).1.filter isErrorRecord) = [] ∧
    (((run_deconvolve .alreadyDataFrames
        (.nonZeroExit "lollipop exited with status 1")).1.map (fun p => p.status)).getLast? =
      some .runningDeconvolution) ∧
    (∀ p ∈ (run_deconvolve .alreadyDataFrames
        (.nonZeroExit "lollipop exited with status 1")).1, p.resultsAttached = false) ∧
    (run_deconvolve .alreadyDataFrames
        (.malformedOutput "Expecting value: line 1 column 1 (char 0)")).2 =
      .failedCaught "Expecting value: line 1 column 1 (char 0)" ∧
    (((run_deconvolve .alreadyDataFrames
        (.malformedOutput "Expecting value: line 1 column 1 (char 0)")).1.map
        (fun p => p.status)).getLast? =
      some (.errorStatus "Expecting value: line 1 column 1 (char 0)")) ∧
    (run_deconvolve (.strBothFail "Failed to process DataFrames") .engineOk).2 =
      .failedCaught "Failed to process DataFrames" := by
  refine ⟨by decide, by decide, by decide, by decide, by decide, by decide, by decide⟩

/-- Claim C8: adding a variant whose name is already registered is rejected
with the name-collision warning and leaves the registry unchanged (the error
branch performs no write); a fresh name is appended; and the guarded add
keeps registry names unique. -/
theorem c8_registry_name_uniqueness (reg : Registry) (name : String)
    (muts : List String) (src : VariantSource) :
    (is_variant_registered reg name = true →
        add_custom_variant reg name muts src =
          .error "Variant already exists in the list. Please choose a different name.") ∧
    (is_variant_registered reg name = false →
        add_custom_variant reg name muts src =
          .ok (reg ++ [(name, ⟨name, muts, src⟩)])) ∧
    ((reg.map (fun p => p.1)).Nodup → ∀ reg2,
        add_custom_variant reg name muts src = .ok reg2 →
        (reg2.map (fun p => p.1)).Nodup) := by
  refine ⟨?_, ?_, ?_⟩
  · intro h
    simp [add_custom_variant, h]
  · intro h
    have hl : (reg.lookup name).isSome = false := h
    simp [add_custom_variant, is_variant_registered, hl, register_variant]
  · intro hnd reg2 hok
    by_cases h : is_variant_registered reg name = true
    · simp [add_custom_variant, h] at hok
    · have hl : (reg.lookup name).isSome = false := by
        cases hcase : (reg.lookup name).isSome
        · rfl
        · exact absurd hcase (by simpa [is_variant_registered] using h)
      simp only [add_custom_variant, is_variant_registered, hl, Bool.false_eq_true,
        if_false, register_variant, Except.ok.injEq] at hok
      subst hok
      rw [List.map_append, List.nodup_append]
      refine ⟨hnd, by simp, ?_⟩
      intro a ha hb
      simp only [List.map_cons, List.map_nil, List.mem_singleton] at hb
      obtain ⟨p, hp, hpa⟩ := List.mem_map.mp ha
      have : ∃ q ∈ reg, q.1 = name := ⟨p, hp, hpa.trans hb⟩
      rw [← lookup_isSome_iff] at this
      rw [hl] at this
      exact Bool.false_ne_true this

/-- Witness for C8 at a concrete registry. -/
theorem c8_registry_name_uniqueness_witness :
    is_variant_registered [("LP.8", ⟨"LP.8", ["C1T"], .curated⟩)] "LP.8" = true ∧
    add_custom_variant [("LP.8", ⟨"LP.8", ["C1T"], .curated⟩)] "LP.8" ["G2A"] .custom_manual =
      .error "Variant already exists in the list. Please choose a different name." ∧
    is_variant_registered [("LP.8", ⟨"LP.8", ["C1T"], .curated⟩)] "XEC" = false ∧
    add_custom_variant [("LP.8", ⟨"LP.8", ["C1T"], .curated⟩)] "XEC" ["G2A"] .custom_covspectrum =
      .ok [("LP.8", ⟨"LP.8", ["C1T"], .curated⟩),
           ("XEC", ⟨"XEC", ["G2A"], .custom_covspectrum⟩)] := by
  refine ⟨by decide, (c8_registry_name_uniqueness _ _ _ _).1 (by decide), by decide,
    (c8_registry_name_uniqueness _ _ _ _).2.1 (by decide)⟩

/-- Claim C9 counterexample: the stage field is not always an integer in
1..5 — the very first persisted record has stage `0`, and the deserialization
debug write has stage `3/2`, which is no natural number at all. -/
theorem c9_counterexample_stage_values :
    (((run_deconvolve .alreadyDataFrames .engineOk).1.map (fun p => p.current)) =
      [0, 1, 3/2, 2, 3, 4, 5]) ∧
    (((run_deconvolve .alreadyDataFrames .engineOk).1.map (fun p => p.current)).head? =
      some 0) ∧
    ¬ (1 ≤ (0 : ℚ)) ∧
    (3/2 : ℚ) ∈ ((run_deconvolve .alreadyDataFrames .engineOk).1.map (fun p => p.current)) ∧
    (∀ n : ℕ, (3/2 : ℚ) ≠ (n : ℚ)) := by
  refine ⟨by norm_num [run_deconvolve, devconvolve], by norm_num [run_deconvolve, devconvolve],
    by norm_num, by norm_num [run_deconvolve, devconvolve], ?_⟩
  intro n h
  have h3 : (3 : ℚ) = (n : ℚ) * 2 := by
    rw [div_eq_iff (by norm_num : (2:ℚ) ≠ 0)] at h
    exact h
  have h4 : (3 : ℕ) = n * 2 := by exact_mod_cast h3
  omega

/-- Claim C9 (amended): along every path of `run_deconvolve`, the stage field
of the persisted records never decreases, and lies in the interval `[0, 5]`
(stages `0` and `3/2` occur, so "integer in 1..5" fails but monotonicity
holds). -/
theorem c9_stage_monotone (d : DeserializeCase) (e : EngineCase) :
    List.Chain' (· ≤ ·) ((run_deconvolve d e).1.map (fun p => p.current)) ∧
    ∀ q ∈ (run_deconvolve d e).1.map (fun p => p.current), 0 ≤ q ∧ q ≤ 5 := by
  cases d <;> cases e <;>
    simp only [run_deconvolve, devconvolve] <;>
    norm_num [List.chain'_cons]

/-- Claim C5 counterexample: `format(parse(s)) == s` fails for accepted
strings that are not canonical: `"c241t"` is accepted (the parser upper-cases
its input) but formats back to `"C241T"`, and the accepted `"C0241T"` (the
digit group admits leading zeros) also formats back to `"C241T"`. -/
theorem c5_counterexample_not_roundtrip :
    validate_mutation_string "c241t".toList = some ⟨241, some 'C', 'T'⟩ ∧
    formatCode ⟨241, some 'C', 'T'⟩ = "C241T".toList ∧
    "C241T".toList ≠ "c241t".toList ∧
    validate_mutation_string "C0241T".toList = some ⟨241, some 'C', 'T'⟩ ∧
    "C0241T".toList ≠ "C241T".toList := by
  refine ⟨by decide, by decide, by decide, by decide, by decide⟩

/-- Claim C5 (amended): the round trip holds on canonical strings: parsing
the canonical rendering of any valid mutation code returns exactly that code,
so `format(parse(s)) == s` for every `s` in the image of `format`. -/
theorem c5_roundtrip_on_canonical (m : MutData) (hm : validMutData m = true) :
    validate_mutation_string (formatCode m) = some m ∧
    (validate_mutation_string (formatCode m)).map formatCode = some (formatCode m) := by
  have hparse : validate_mutation_string (formatCode m) = some m := by
    unfold validate_mutation_string
    rw [map_pyUpper_formatCode hm, regexDecompose_formatCode hm]
    simp only [digitsToNat_natToDigits]
    have hpos : 0 < m.position := by
      unfold validMutData at hm
      simp only [Bool.and_eq_true, decide_eq_true_eq] at hm
      exact hm.1.1
    rw [if_pos hpos]
  exact ⟨hparse, by rw [hparse]; rfl⟩

/-- Witness for C5 (amended) at the code `C241T`. -/
theorem c5_roundtrip_on_canonical_witness :
    validMutData ⟨241, some 'C', 'T'⟩ = true ∧
    validate_mutation_string (formatCode ⟨241, some 'C', 'T'⟩) =
      some ⟨241, some 'C', 'T'⟩ :=
  ⟨by decide, (c5_roundtrip_on_canonical ⟨241, some 'C', 'T'⟩ (by decide)).1⟩

/-- Claim C6: `format_mutation` — equal-length `REF>ALT` segments of length
greater than one split into one code per offset `i`, built from `ref[i]`,
`position + i` and `alt[i]`; segments of differing length (such a change
contains `>`, so it is never a pure deletion run) produce no codes for the
entry; and a pure run of `N` deletion markers yields exactly `N` deletion
codes, all anchored at the same `position`. -/
theorem c6_canonicalize_multi (position : Nat) (r a : List Char)
    (hr : '>' ∉ r) (ha : '>' ∉ a) :
    (1 < r.length → r.length = a.length →
      format_mutation position (r ++ '>' :: a) =
        (List.range r.length).map (fun i =>
          [r.getD i ' '] ++ natToDigits (position + i) ++ [a.getD i ' '])) ∧
    (r.length ≠ a.length → format_mutation position (r ++ '>' :: a) = []) ∧
    (∀ n : Nat, format_mutation position (List.replicate n '-') =
      List.replicate n (natToDigits position ++ ['-'])) := by
  have hgt : '>' ∈ r ++ '>' :: a := by simp
  have hnd : ¬ ((r ++ '>' :: a).all (fun c => c == '-') = true) := by
    intro hall
    have := List.all_eq_true.mp hall '>' hgt
    simp at this
  refine ⟨?_, ?_, ?_⟩
  · intro h1 heq
    unfold format_mutation
    rw [if_neg hnd, if_pos hgt]
    simp only [splitGt_append hr ha]
    rw [if_pos ⟨h1, heq ▸ h1, heq⟩]
    exact filterMap_if_lt _ _ _ (fun i hi => heq ▸ List.mem_range.mp hi)
  · intro hne
    unfold format_mutation
    rw [if_neg hnd, if_pos hgt]
    simp only [splitGt_append hr ha]
    rw [if_neg (fun hcon : 1 < r.length ∧ 1 < a.length ∧ r.length = a.length => hne hcon.2.2),
      if_pos hne]
  · intro n
    unfold format_mutation
    rw [if_pos (List.all_eq_true.mpr (fun c hc => by
      simp [List.eq_of_mem_replicate hc]))]
    rw [List.length_replicate]

/-- Witness for C6: spec scenario 3 (`GGG>AAC` at 28881), the skipped
ambiguous change `G>AAC`, and spec scenario 4 (`--` at 29734). -/
theorem c6_canonicalize_multi_witness :
    ('>' ∉ "GGG".toList ∧ '>' ∉ "AAC".toList ∧ 1 < "GGG".toList.length ∧
      "GGG".toList.length = "AAC".toList.length ∧ "G".toList.length ≠ "AAC".toList.length) ∧
    format_mutation 28881 "GGG>AAC".toList =
      ["G28881A".toList, "G28882A".toList, "G28883C".toList] ∧
    format_mutation 28881 "G>AAC".toList = [] ∧
    format_mutation 29734 "--".toList = ["29734-".toList, "29734-".toList] := by
  refine ⟨by decide, ?_, ?_, ?_⟩
  · have h := (c6_canonicalize_multi 28881 "GGG".toList "AAC".toList
      (by decide) (by decide)).1 (by decide) (by decide)
    exact h.trans (by decide)
  · exact (c6_canonicalize_multi 28881 "G".toList "AAC".toList
      (by decide) (by decide)).2.1 (by decide)
  · have h := (c6_canonicalize_multi 29734 [] [] (by decide) (by decide)).2.2 2
    exact h.trans (by decide)

/-- Claim C7 counterexample: the aggregator never processes an amino-acid
mutation — the guard at the top of `fetch_mutation_counts_and_coverage`
raises `NotImplementedError` for every type other than `"nucleotide"`, so no
count query is issued at all. -/
theorem c7_counterexample_amino_not_implemented :
    fetch_mutation_counts_and_coverage "aminoAcid" ["A123T".toList]
      (fun _ => some []) = .error "NotImplementedError: Unknown mutation type" := rfl

theorem resultsFor_congr {syms : List Char} {svc svc2 : List Char → Option (List Entry)}
    {m : List Char} (h : ∀ q ∈ queryPlan syms m, svc q = svc2 q) :
    resultsFor syms svc m = resultsFor syms svc2 m := by
  unfold resultsFor
  apply List.map_congr_left
  intro p hp
  rw [h p.2 (List.of_mem_zip hp).2]

theorem aggregateOne_congr {syms : List Char} {svc svc2 : List Char → Option (List Entry)}
    {m : List Char} {target : Char}
    (h : ∀ q ∈ queryPlan syms m, svc q = svc2 q) :
    aggregateOne syms svc m target = aggregateOne syms svc2 m target := by
  have h1 : coverageData syms svc m = coverageData syms svc2 m := by
    unfold coverageData
    rw [resultsFor_congr h]
  have h2 : totalCoverage syms svc m = totalCoverage syms svc2 m := by
    unfold totalCoverage
    rw [h1]
  have h3 : overallFrequency syms svc m target = overallFrequency syms svc2 m target := by
    unfold overallFrequency
    rw [h1, h2]
  unfold aggregateOne
  rw [resultsFor_congr h, h1, h2, h3]

/-- Claim C7 (amended): `fetch_mutation_counts_and_coverage` rejects the
amino-acid mutation type up front with `NotImplementedError`; the
(unreachable) amino-acid branch in its body is the same aggregation
instantiated with the 20-residue alphabet — its query plan pairs the position
prefix with each of the 20 residues, and the aggregation depends on the
service only through that plan.  The nucleotide alphabet has 4 symbols. -/
theorem c7_amino_branch (mutations : List (List Char))
    (svc svc2 : List Char → Option (List Entry)) (m : List Char) (target : Char)
    (hagree : ∀ q ∈ queryPlan amino_acids m, svc q = svc2 q) :
    fetch_mutation_counts_and_coverage "aminoAcid" mutations svc =
      .error "NotImplementedError: Unknown mutation type" ∧
    amino_acids.length = 20 ∧
    nucleotides.length = 4 ∧
    queryPlan amino_acids m = amino_acids.map (fun aa => m.dropLast ++ [aa]) ∧
    aggregateOne amino_acids svc m target = aggregateOne amino_acids svc2 m target := by
  exact ⟨rfl, by decide, by decide, rfl, aggregateOne_congr hagree⟩

/-- Witness for C7 (amended) at a concrete service. -/
theorem c7_amino_branch_witness :
    fetch_mutation_counts_and_coverage "aminoAcid" ["A123T".toList] (fun _ => some []) =
      .error "NotImplementedError: Unknown mutation type" ∧
    amino_acids.length = 20 := by
  have h := c7_amino_branch ["A123T".toList] (fun _ => some []) (fun _ => some [])
    "A123T".toList 'T' (fun q _ => rfl)
  exact ⟨h.1, h.2.1⟩

/-- Fixture: a service returning empty data for every query. -/
def svcEmpty : List Char → Option (List Entry) := fun _ => some []

/-- Claim C4 counterexample: with zero overall coverage the code reports the
overall (non-stratified) frequency as the number `0`, whereas the frequency
formula of the claim (`NA` iff coverage is 0, applied to the whole date
range) yields the sentinel; `val 0` is not `na`.  Per-date records are not
emitted at all in this situation, so only the overall field disagrees. -/
theorem c4_counterexample_overall_zero_coverage :
    fetch_mutation_counts_and_coverage "nucleotide" ["A123T".toList] svcEmpty =
      .ok [{ mutation := "A123T".toList, coverage := 0, frequency := 0,
             counts := [('A', 0), ('T', 0), ('C', 0), ('G', 0)], stratified := [] }] ∧
    specFrequency 0 0 = .na ∧
    FreqVal.val 0 ≠ FreqVal.na := by
  refine ⟨rfl, rfl, by decide⟩

/-- Claim C4 (amended): for a successful nucleotide aggregation of one
mutation, (i) the overall coverage is the sum of the counts over the four
queried symbols, and also the sum of the per-date coverages across the whole
date range; (ii) when the overall coverage is positive the overall frequency
is `count(target)/coverage` and lies in `[0, 1]`; (iii) every stratified
record has `coverage(date) = Σ_symbol count(symbol, date)`, and when its
coverage is positive its frequency is exactly the spec formula
`specFrequency` (the ratio, in `[0, 1]`) and its count is the target count;
(iv) per date, frequency and count are the sentinel `NA` exactly when the
coverage of that date is zero.  (The original claim fails only for the
overall frequency at zero overall coverage, which the code reports as the
number `0`, not `NA` — see the counterexample.) -/
theorem c4_coverage_frequency_invariants
    (svc : List Char → Option (List Entry)) (m : List Char) (target : Char) (r : MutResult)
    (hm : m.getLast? = some target)
    (h : fetch_mutation_counts_and_coverage "nucleotide" [m] svc = .ok [r]) :
    (r.coverage = ((queryPlan nucleotides m).map (fun q => totalCount (svc q))).sum) ∧
    (r.coverage = (r.stratified.map (fun rec => rec.coverage)).sum) ∧
    (0 < r.coverage →
      r.frequency =
        ((if target ∈ nucleotides then totalCount (svc (m.dropLast ++ [target])) else 0 : Nat) : ℚ)
          / (r.coverage : ℚ) ∧
      0 ≤ r.frequency ∧ r.frequency ≤ 1) ∧
    (∀ rec ∈ r.stratified,
      rec.coverage = (nucleotides.map (fun nt => dateCount svc m nt rec.sampling_date)).sum ∧
      (0 < rec.coverage →
        rec.frequency = specFrequency
          (if target ∈ nucleotides then dateCount svc m target rec.sampling_date else 0)
          rec.coverage ∧
        rec.count = .val (if target ∈ nucleotides then dateCount svc m target rec.sampling_date else 0) ∧
        (∀ q : ℚ, rec.frequency = .val q → 0 ≤ q ∧ q ≤ 1)) ∧
      (rec.frequency = .na ↔ rec.coverage = 0) ∧
      (rec.count = .na ↔ rec.coverage = 0)) := by
  obtain ⟨esA, esT, esC, esG, hA, hT, hC, hG, hr⟩ :=
    aggregateOne_nuc_ok (fetch_nuc_singleton_ok hm h)
  subst hr
  obtain ⟨hsh, hnd, hmemiff, hsum⟩ :=
    stratShape_foldl nucleotides (nucEvents esA esT esC esG) (nucEvents_fst esA esT esC esG)
  have hcd : coverageData nucleotides svc m =
      nucleotides.map (fun c => (c, totalCount (svc (m.dropLast ++ [c])))) := by
    unfold coverageData
    rw [resultsFor_nuc]
    rfl
  have htot : totalCoverage nucleotides svc m =
      (nucleotides.map (fun c => totalCount (svc (m.dropLast ++ [c])))).sum := by
    unfold totalCoverage
    rw [hcd, List.map_map]
    rfl
  have hlookup : ((coverageData nucleotides svc m).lookup target).getD 0 =
      (if target ∈ nucleotides then totalCount (svc (m.dropLast ++ [target])) else 0) := by
    rw [hcd, lookup_map_self]
    by_cases hmemT : target ∈ nucleotides <;> simp [hmemT]
  have hcntle : (if target ∈ nucleotides then totalCount (svc (m.dropLast ++ [target])) else 0)
      ≤ totalCoverage nucleotides svc m := by
    by_cases hmemT : target ∈ nucleotides
    · rw [if_pos hmemT, htot]
      exact mem_le_sum_map nucleotides
        (fun c => totalCount (svc (m.dropLast ++ [c]))) target hmemT
    · simp [hmemT]
  refine ⟨?_, ?_, ?_, ?_⟩
  · show totalCoverage nucleotides svc m = _
    rw [htot]
    simp [queryPlan, List.map_map, Function.comp_def]
  · show totalCoverage nucleotides svc m = _
    have hmapcov : ((stratRecords target ((nucEvents esA esT esC esG).foldl
        (fun s2 ev => addEntry nucleotides s2 ev.1 ev.2) [])).map (fun rec => rec.coverage)) =
        (((nucEvents esA esT esC esG).foldl
          (fun s2 ev => addEntry nucleotides s2 ev.1 ev.2) []).map (fun p => p.2.coverage)) := by
      simp [stratRecords, List.map_map, Function.comp_def]
    rw [hmapcov, hsum, sum_events_nucEvents, htot]
    simp only [hA, hT, hC, hG, nucleotides, List.map_cons, List.map_nil, List.sum_cons,
      List.sum_nil, totalCount]
    omega
  · intro hpos
    have hposc : 0 < totalCoverage nucleotides svc m := hpos
    constructor
    · show overallFrequency nucleotides svc m target = _
      unfold overallFrequency
      rw [if_pos hposc, hlookup]
    · have hfe : overallFrequency nucleotides svc m target =
          ((if target ∈ nucleotides then totalCount (svc (m.dropLast ++ [target])) else 0 : Nat) : ℚ)
            / (totalCoverage nucleotides svc m : ℚ) := by
        unfold overallFrequency
        rw [if_pos hposc, hlookup]
      constructor
      · rw [hfe]
        positivity
      · show overallFrequency nucleotides svc m target ≤ 1
        rw [hfe]
        rw [div_le_one (by exact_mod_cast hposc)]
        exact_mod_cast hcntle
  · intro rec hrec
    obtain ⟨p, hp, hpr⟩ := List.mem_map.mp hrec
    obtain ⟨hcounts, hcov⟩ := hsh p hp
    have hcnt : (p.2.counts.lookup target).getD 0 =
        (if target ∈ nucleotides then dateCount svc m target p.1 else 0) := by
      rw [hcounts, lookup_map_self]
      by_cases hmemT : target ∈ nucleotides
      · simp [hmemT, evCount_eq_dateCount hA hT hC hG hmemT]
      · simp [hmemT]
    have hcovsum : p.2.coverage =
        (nucleotides.map (fun nt => dateCount svc m nt p.1)).sum := by
      rw [hcov, evCov_nucEvents]
      simp only [nucleotides, List.map_cons, List.map_nil, List.sum_cons, List.sum_nil,
        dateCount, hA, hT, hC, hG, Option.getD_some]
      omega
    have hcntlecov : (if target ∈ nucleotides then dateCount svc m target p.1 else 0)
        ≤ p.2.coverage := by
      by_cases hmemT : target ∈ nucleotides
      · rw [if_pos hmemT, ← evCount_eq_dateCount hA hT hC hG hmemT, hcov]
        exact evCount_le_evCov _ _ _
      · simp [hmemT]
    subst hpr
    simp only [stratRecords]
    refine ⟨hcovsum, ?_, ?_, ?_⟩
    · intro hposd
      have hposd2 : 0 < p.2.coverage := hposd
      refine ⟨?_, ?_, ?_⟩
      · show (if 0 < p.2.coverage then
            FreqVal.val ((((p.2.counts.lookup target).getD 0 : Nat) : ℚ) / (p.2.coverage : ℚ))
          else .na) = _
        rw [if_pos hposd2, hcnt]
        unfold specFrequency
        rw [if_pos hposd2]
      · show (if 0 < p.2.coverage then CountVal.val ((p.2.counts.lookup target).getD 0) else .na) = _
        rw [if_pos hposd2, hcnt]
      · intro q hq
        rw [if_pos hposd2] at hq
        have hq2 : q = (((p.2.counts.lookup target).getD 0 : Nat) : ℚ) / (p.2.coverage : ℚ) := by
          injection hq with hq
          exact hq.symm
        subst hq2
        constructor
        · positivity
        · rw [div_le_one (by exact_mod_cast hposd2)]
          have := hcnt ▸ hcntlecov
          exact_mod_cast this
    · constructor
      · intro hna
        by_contra hne
        have hposd2 : 0 < p.2.coverage := Nat.pos_of_ne_zero hne
        rw [if_pos hposd2] at hna
        exact FreqVal.noConfusion hna
      · intro hz
        rw [if_neg (by omega)]
    · constructor
      · intro hna
        by_contra hne
        have hposd2 : 0 < p.2.coverage := Nat.pos_of_ne_zero hne
        rw [if_pos hposd2] at hna
        exact CountVal.noConfusion hna
      · intro hz
        rw [if_neg (by omega)]

/-- Fixture: spec scenario 1 — counts A=10, T=5, C=3, G=2 on one date. -/
def svcScenario1 : List Char → Option (List Entry) := fun q =>
  if q = "A123A".toList then some [⟨"2024-01-15", 10⟩]
  else if q = "A123T".toList then some [⟨"2024-01-15", 5⟩]
  else if q = "A123C".toList then some [⟨"2024-01-15", 3⟩]
  else if q = "A123G".toList then some [⟨"2024-01-15", 2⟩]
  else some []

/-- The result the aggregator computes for scenario 1: coverage 20,
frequency 5/20 = 1/4. -/
def scenario1Result : MutResult :=
  { mutation := "A123T".toList, coverage := 20,
    frequency := ((5 : ℕ) : ℚ) / ((20 : ℕ) : ℚ),
    counts := [('A', 10), ('T', 5), ('C', 3), ('G', 2)],
    stratified := [⟨"2024-01-15", 20,
      .val (((5 : ℕ) : ℚ) / ((20 : ℕ) : ℚ)), .val 5⟩] }

/-- Witness for C4 (amended) at spec scenario 1. -/
theorem c4_coverage_frequency_invariants_witness :
    fetch_mutation_counts_and_coverage "nucleotide" ["A123T".toList] svcScenario1 =
      .ok [scenario1Result] ∧
    scenario1Result.coverage =
      ((queryPlan nucleotides "A123T".toList).map (fun q => totalCount (svcScenario1 q))).sum ∧
    scenario1Result.coverage = 20 ∧
    scenario1Result.frequency = 1/4 ∧
    (0 < scenario1Result.coverage →
      0 ≤ scenario1Result.frequency ∧ scenario1Result.frequency ≤ 1) := by
  have h := c4_coverage_frequency_invariants svcScenario1 "A123T".toList 'T'
    scenario1Result rfl rfl
  refine ⟨rfl, h.1, rfl, by norm_num [scenario1Result], fun hp => (h.2.2.1 hp).2⟩

/-- Claim C10: for a nucleotide mutation whose target symbol is not one of
A, T, C, G (deletion codes such as `123-`, or an `N` target), the aggregator
still queries exactly the four nucleotides — the query plan is the prefix
with each of A, T, C, G, and the result is unchanged under any service that
agrees on those four queries — so the overall frequency is 0 and on every
date with positive coverage the reported count and frequency for the target
are 0, regardless of the actual abundance of that symbol. -/
theorem c10_nonacgt_target_zero
    (svc svc2 : List Char → Option (List Entry)) (m : List Char) (target : Char) (r : MutResult)
    (hm : m.getLast? = some target)
    (ht : target ∉ nucleotides)
    (h : fetch_mutation_counts_and_coverage "nucleotide" [m] svc = .ok [r])
    (hagree : ∀ q ∈ queryPlan nucleotides m, svc q = svc2 q) :
    queryPlan nucleotides m =
      [m.dropLast ++ ['A'], m.dropLast ++ ['T'], m.dropLast ++ ['C'], m.dropLast ++ ['G']] ∧
    fetch_mutation_counts_and_coverage "nucleotide" [m] svc2 = .ok [r] ∧
    r.frequency = 0 ∧
    (∀ rec ∈ r.stratified, 0 < rec.coverage →
      rec.count = .val 0 ∧ rec.frequency = .val 0) := by
  have hagg := fetch_nuc_singleton_ok hm h
  have hagg2 : aggregateOne nucleotides svc2 m target = .ok r :=
    (aggregateOne_congr hagree).symm.trans hagg
  obtain ⟨esA, esT, esC, esG, hA, hT, hC, hG, hr⟩ := aggregateOne_nuc_ok hagg
  obtain ⟨hsh, hnd, hmemiff, hsum⟩ :=
    stratShape_foldl nucleotides (nucEvents esA esT esC esG) (nucEvents_fst esA esT esC esG)
  have hcd : coverageData nucleotides svc m =
      nucleotides.map (fun c => (c, totalCount (svc (m.dropLast ++ [c])))) := by
    unfold coverageData
    rw [resultsFor_nuc]
    rfl
  refine ⟨rfl, ?_, ?_, ?_⟩
  · unfold fetch_mutation_counts_and_coverage
    rw [if_neg (by simp)]
    simp only [List.mapM_cons, List.mapM_nil, hm, hagg2]
    rfl
  · subst hr
    show overallFrequency nucleotides svc m target = 0
    have hlz : ((coverageData nucleotides svc m).lookup target).getD 0 = 0 := by
      rw [hcd, lookup_map_self, if_neg ht]
      rfl
    unfold overallFrequency
    rw [hlz]
    by_cases hp : 0 < totalCoverage nucleotides svc m
    · rw [if_pos hp]
      simp
    · rw [if_neg hp]
  · subst hr
    intro rec hrec hposd
    obtain ⟨p, hp, hpr⟩ := List.mem_map.mp hrec
    obtain ⟨hcounts, hcov⟩ := hsh p hp
    have hcnt : (p.2.counts.lookup target).getD 0 = 0 := by
      rw [hcounts, lookup_map_self, if_neg ht]
      rfl
    subst hpr
    simp only [stratRecords] at hposd ⊢
    have hposd2 : 0 < p.2.coverage := hposd
    constructor
    · show (if 0 < p.2.coverage then
            CountVal.val ((p.2.counts.lookup target).getD 0) else .na) = _
      rw [if_pos hposd2, hcnt]
    · show (if 0 < p.2.coverage then
          FreqVal.val ((((p.2.counts.lookup target).getD 0 : Nat) : ℚ) / (p.2.coverage : ℚ))
        else .na) = _
      rw [if_pos hposd2, hcnt]
      norm_num

/-- Fixture: a service reporting a count of 3 for every query on one date. -/
def svcConst3 : List Char → Option (List Entry) := fun _ => some [⟨"d1", 3⟩]

/-- The result the aggregator computes for `123-` against `svcConst3`:
coverage 12 (3 per queried nucleotide), target count 0, frequency 0/12. -/
def deletionResult : MutResult :=
  { mutation := "123-".toList, coverage := 12,
    frequency := ((0 : ℕ) : ℚ) / ((12 : ℕ) : ℚ),
    counts := [('A', 3), ('T', 3), ('C', 3), ('G', 3)],
    stratified := [⟨"d1", 12,
      .val (((0 : ℕ) : ℚ) / ((12 : ℕ) : ℚ)), .val 0⟩] }

/-- Witness for C10 at the deletion code `123-`. -/
theorem c10_nonacgt_target_zero_witness :
    ("123-".toList.getLast? = some '-') ∧ ('-' ∉ nucleotides) ∧
    fetch_mutation_counts_and_coverage "nucleotide" ["123-".toList] svcConst3 =
      .ok [deletionResult] ∧
    deletionResult.frequency = 0 ∧
    (∀ rec ∈ deletionResult.stratified, 0 < rec.coverage →
      rec.count = .val 0 ∧ rec.frequency = .val 0) := by
  have h := c10_nonacgt_target_zero svcConst3 svcConst3 "123-".toList '-' deletionResult
    rfl (by decide) rfl (fun q _ => rfl)
  exact ⟨rfl, by decide, rfl, h.2.2.1, h.2.2.2⟩

end VPipeScout
